import Mathlib

/-!
Verification development for the grid-search / model-selection engine of
`src/recommender.py` (module `recommender`, with `utils.py` as an external
helper module).  The Python code is shallowly embedded: Python strings are
lists of characters, Python dicts are ordered association lists (later
entries shadow earlier ones, as in `dict(pairs)`), numeric metric values are
rationals, exceptions are modelled with `Except`, and file-system effects
are modelled as an explicit list of write events returned alongside the
result.  Model classes (external collaborators per the specification's
capability contract) are records of pure functions that may fail.
-/

/-- Python strings, embedded as lists of characters. -/
abbrev Str := List Char

/-- Character list of a Lean string literal (used to write concrete
Python string constants such as `"factors"`). -/
def chars (s : String) : Str := s.toList

/-- `sep.join(parts)`: Python's `str.join` restricted to a one-character
separator, as used by `",".join(...)` in `save_hyperparams_and_metrics`. -/
def joinChar (sep : Char) : List Str → Str
  | [] => []
  | [x] => x
  | x :: y :: ys => x ++ sep :: joinChar sep (y :: ys)

/-- `s.split(sep)`: Python's `str.split` with a one-character separator.
`"".split(sep) = [""]`, matching Python. -/
def splitChar (sep : Char) : Str → List Str
  | [] => [[]]
  | c :: rest =>
    if c = sep then [] :: splitChar sep rest
    else
      match splitChar sep rest with
      | [] => [[c]]
      | r :: rs => (c :: r) :: rs

/-- Lookup in a Python dict modelled as an ordered association list:
`dict(pairs)` keeps the value of the **last** occurrence of a key, so the
tail of the list is consulted first. -/
def dictLookup : List (Str × β) → Str → Option β
  | [], _ => none
  | p :: rest, k =>
    match dictLookup rest k with
    | some v => some v
    | none => if p.1 = k then some p.2 else none

/-- `d.pop(k)`: removes the entry for `k` (the first occurrence, which in a
genuine dict is the only one) and returns its value together with the
remaining dict; `none` models the `KeyError` raised when `k` is missing. -/
def dictPop (k : Str) : List (Str × β) → Option (β × List (Str × β))
  | [] => none
  | p :: rest =>
    if p.1 = k then some (p.2, rest)
    else
      match dictPop k rest with
      | none => none
      | some (v, r) => some (v, p :: r)

/-- `list(itertools.product(*lists))`: the full cross product in standard
nested-loop order (leftmost input varies slowest), as used at
`recommender.py:96` and `recommender.py:128`. -/
def itProduct : List (List α) → List (List α)
  | [] => [[]]
  | xs :: rest => xs.flatMap (fun x => (itProduct rest).map (fun t => x :: t))

/-- Number of configurations a grid enumerates: the product of the
candidate-sequence lengths. -/
def prodLen (ls : List (List α)) : Nat := (ls.map List.length).prod

/-- The configuration produced at position `i` of the nested-loop
enumeration: mixed-radix decoding of `i` over the candidate lists. -/
def nthConfig [Inhabited α] (ls : List (List α)) (i : Nat) : List α :=
  match ls with
  | [] => []
  | xs :: rest => xs.getD (i / prodLen rest) default :: nthConfig rest (i % prodLen rest)

theorem prodLen_nil : prodLen ([] : List (List α)) = 1 := rfl

theorem prodLen_cons (xs : List α) (ls : List (List α)) :
    prodLen (xs :: ls) = xs.length * prodLen ls := by
  simp [prodLen]

theorem splitChar_not_mem (sep : Char) (p : Str) (h : sep ∉ p) :
    splitChar sep p = [p] := by
  induction p with
  | nil => rfl
  | cons c rest ih =>
    have hc : ¬ c = sep := by
      intro he; exact h (he ▸ List.mem_cons_self c rest)
    have hr : sep ∉ rest := fun hm => h (List.mem_cons_of_mem c hm)
    simp only [splitChar, if_neg hc, ih hr]

theorem splitChar_append (sep : Char) (p t : Str) (h : sep ∉ p) :
    splitChar sep (p ++ sep :: t) = p :: splitChar sep t := by
  induction p with
  | nil => simp [splitChar]
  | cons c rest ih =>
    have hc : ¬ c = sep := by
      intro he; exact h (he ▸ List.mem_cons_self c rest)
    have hr : sep ∉ rest := fun hm => h (List.mem_cons_of_mem c hm)
    have h2 : splitChar sep (rest.append (sep :: t)) = rest :: splitChar sep t := ih hr
    simp only [List.cons_append, splitChar, if_neg hc, h2]

theorem splitChar_joinChar (sep : Char) (parts : List Str)
    (hne : parts ≠ []) (h : ∀ p ∈ parts, sep ∉ p) :
    splitChar sep (joinChar sep parts) = parts := by
  induction parts with
  | nil => exact absurd rfl hne
  | cons x xs ih =>
    cases xs with
    | nil =>
      simp only [joinChar]
      exact splitChar_not_mem sep x (h x (List.mem_cons_self x []))
    | cons y ys =>
      have hx : sep ∉ x := h x (List.mem_cons_self x (y :: ys))
      have hrest : ∀ p ∈ y :: ys, sep ∉ p := fun p hp =>
        h p (List.mem_cons_of_mem x hp)
      have hne' : (y :: ys) ≠ [] := by simp
      simp only [joinChar, splitChar_append sep x _ hx, ih hne' hrest]

theorem flatMap_congr {f g : α → List β} (l : List α) (h : ∀ a ∈ l, f a = g a) :
    l.flatMap f = l.flatMap g := by
  induction l with
  | nil => rfl
  | cons x xs ih =>
    simp only [List.flatMap_cons, h x (List.mem_cons_self x xs),
      ih (fun a ha => h a (List.mem_cons_of_mem x ha))]

theorem range_mul_flatMap (m N : Nat) :
    List.range (m * N) =
      (List.range m).flatMap (fun j => (List.range N).map (fun r => j * N + r)) := by
  induction m with
  | zero => simp
  | succ m ih =>
    have hm : (m + 1) * N = m * N + N := by ring
    rw [hm, List.range_add, List.range_succ, List.flatMap_append, ← ih]
    simp

theorem flatMap_index [Inhabited α] (xs : List α) (g : α → List β) :
    xs.flatMap g = (List.range xs.length).flatMap (fun j => g (xs.getD j default)) := by
  induction xs with
  | nil => simp
  | cons x xs ih =>
    rw [List.flatMap_cons, List.length_cons, List.range_succ_eq_map,
      List.flatMap_cons, List.flatMap_map]
    simp only [List.getD_cons_zero, List.getD_cons_succ]
    rw [ih]

theorem itProduct_eq_range_map [Inhabited α] (ls : List (List α)) :
    itProduct ls = (List.range (prodLen ls)).map (nthConfig ls) := by
  induction ls with
  | nil =>
    simp [itProduct, prodLen, nthConfig, List.range_succ]
  | cons xs rest ih =>
    by_cases hN : prodLen rest = 0
    · have h1 : itProduct rest = [] := by rw [ih, hN]; simp
      rw [prodLen_cons, hN, Nat.mul_zero]
      simp [itProduct, h1]
    · have hN' : 0 < prodLen rest := Nat.pos_of_ne_zero hN
      rw [itProduct, ih, prodLen_cons, range_mul_flatMap, List.map_flatMap,
        flatMap_index xs]
      apply flatMap_congr
      intro j _
      rw [List.map_map, List.map_map]
      apply List.map_congr_left
      intro r hr
      have hrN : r < prodLen rest := List.mem_range.mp hr
      show xs.getD j default :: nthConfig rest r = nthConfig (xs :: rest) (j * prodLen rest + r)
      rw [nthConfig]
      have hdiv : (j * prodLen rest + r) / prodLen rest = j := by
        rw [Nat.mul_comm j (prodLen rest), Nat.mul_add_div hN', Nat.div_eq_of_lt hrN,
          Nat.add_zero]
      have hmod : (j * prodLen rest + r) % prodLen rest = r := by
        rw [Nat.mul_comm j (prodLen rest), Nat.mul_add_mod, Nat.mod_eq_of_lt hrN]
      rw [hdiv, hmod]

theorem itProduct_eq_nil_of_mem_nil (ls : List (List α)) (h : ∃ xs ∈ ls, xs = []) :
    itProduct ls = [] := by
  induction ls with
  | nil => simp at h
  | cons xs rest ih =>
    obtain ⟨ys, hy, hye⟩ := h
    rcases List.mem_cons.mp hy with h1 | h1
    · rw [itProduct, ← h1, hye]
      simp
    · have h2 : itProduct rest = [] := ih ⟨ys, h1, hye⟩
      rw [itProduct, h2]
      simp

deriving instance DecidableEq for Except

/-- Python exceptions surfaced by the engine.  `trial` wraps an exception
escaping model construction, training or validation; `keyError` models a
failed dict indexing (`res[metric]`, `hyperparams.pop`); `valueError` models
both `max() arg is an empty sequence` and `mp.Pool(processes=0)`;
`notImplemented` models `raise NotImplementedError`. -/
inductive PyError (ε : Type) where
  | trial (e : ε)
  | keyError
  | valueError
  | notImplemented
deriving DecidableEq

/-- Metric values recorded by `model.validate`: a dict from metric name to
numeric score. -/
abbrev Metrics := List (Str × ℚ)

/-- A hyperparameter grid: dict from hyperparameter name to the ordered
candidate-value sequence. -/
abbrev Grid (α : Type) := List (Str × List α)

/-- `utils.SeedSequence`: only its `start` attribute is read by the engine
(recorded in the winner's info dict). -/
structure SeedSequence where
  start : Nat
deriving DecidableEq

/-- A Python runtime value appearing in the winner's info dict:
metric scores, hyperparameter values, strings/class identifiers, and the
integer seed start. -/
inductive PyVal (α : Type) where
  | num (q : ℚ)
  | hpv (a : α)
  | strv (s : Str)
  | natv (n : Nat)
deriving DecidableEq

/-- The capability contract a model class must expose to the engine
(spec §6): construction from keyword hyperparameters, `train`, `validate`,
classmethod `load`, and the ground-truth `preferences` attribute.  All
operations may raise (`Except ε`); `name` models `cls.__name__` used as the
class identifier in the info dict. -/
structure ModelClass (Mat M ε α : Type) where
  name : Str
  build : List (Str × α) → Except ε M
  train : M → Mat → Except ε M
  validate : M → Mat → Mat → Nat → Except ε Metrics
  load : Str → M
  preferences : M → Mat

/-- `config.Configuration`: the pre-resolved, read-only settings object.
The per-model-class grid lookups `constants.ground_truth_hparams[cls]` and
`constants.recommender_hparams[cls]` are folded into per-dataset lookups
(the dataset determines the class, which determines the grid). -/
structure Configuration (Mat M ε α : Type) where
  parallel : Bool
  evaluation_k : Nat
  recommender_evaluation_metric : Str
  train_size : ℚ
  validation_size : ℚ
  ground_truth_models : Str → ModelClass Mat M ε α
  ground_truth_files : Str → Str
  ground_truth_hparams : Str → Grid α
  recommender_models : Str → ModelClass Mat M ε α
  recommender_hparams : Str → Grid α
  recommender_dirs : Str → Str
  model_base_name : Str

/-- Replace the `parallel` flag of a configuration, leaving every other
field unchanged. -/
def setParallel (conf : Configuration Mat M ε α) (b : Bool) : Configuration Mat M ε α :=
  { conf with parallel := b }

/-- One trial's result: the tuple `(metrics, hp, model)` returned by
`train_eval_one_configuration`. -/
structure TrialResult (M α : Type) where
  metrics : Metrics
  hp : List (Str × α)
  model : M
deriving DecidableEq

/-- The dict returned by `search_best_model`: winning model, its
hyperparameter dict, and the info dict. -/
structure BestDict (M α : Type) where
  model : M
  hparams : List (Str × α)
  info : List (Str × PyVal α)
deriving DecidableEq

/-- The sequential dispatch `[train_eval_one_configuration(*arg) for arg in
args]` (`recommender.py:61`): results in argument order, first exception
propagates. -/
def seqMap (f : γ → Except ε' β) : List γ → Except ε' (List β)
  | [] => Except.ok []
  | a :: as => do
    let b ← f a
    let bs ← seqMap f as
    Except.ok (b :: bs)

/-- `pool.starmap(train_eval_one_configuration, args)`
(`recommender.py:59`): the worker pool applies the function to every
argument tuple and returns the results in argument order; an exception
raised in a worker is re-raised in the parent, aborting the whole batch. -/
def poolStarmap (f : γ → Except ε' β) : List γ → Except ε' (List β)
  | [] => Except.ok []
  | a :: as => do
    let b ← f a
    let bs ← poolStarmap f as
    Except.ok (b :: bs)

/-- Python's `max(xs, key=...)` on a non-empty list `x :: xs`: scan left to
right, replacing the current best only on a strictly larger key, so the
first maximal element wins ties. -/
def pyMax1 (key : β → ℚ) (x : β) (xs : List β) : β :=
  xs.foldl (fun best el => if key best < key el then el else best) x

/-- `train_eval_one_configuration` (`recommender.py:29`): bind the flat
hyperparameter tuple to names positionally (`dict(zip(...))`), construct the
model, train it, validate it, and return `(metrics, hp, model)`. -/
def trainEvalOneConfiguration (model_class : ModelClass Mat M ε α)
    (hparams_names : List Str) (train valid : Mat) (k : Nat) (hp : List α) :
    Except ε (TrialResult M α) := do
  let hpd := List.zip hparams_names hp
  let model ← model_class.build hpd
  let trained ← model_class.train model train
  let metrics ← model_class.validate trained train valid k
  Except.ok ⟨metrics, hpd, trained⟩

/-- The dispatch block of `search_best_model` (`recommender.py:55`–`61`).
In parallel mode with zero configurations, `mp.Pool(processes=min(0, ...))`
raises `ValueError` (cpu_count is at least 1, so otherwise the pool size is
positive and irrelevant to the results). -/
def trialDispatch (conf : Configuration Mat M ε α) (model_class : ModelClass Mat M ε α)
    (hparams_names : List Str) (hparams_flat : List (List α)) (train valid : Mat) :
    Except (PyError ε) (List (TrialResult M α)) :=
  if conf.parallel then
    if hparams_flat.isEmpty then Except.error PyError.valueError
    else
      poolStarmap
        (fun hp =>
          (trainEvalOneConfiguration model_class hparams_names train valid
              conf.evaluation_k hp).mapError PyError.trial)
        hparams_flat
  else
    seqMap
      (fun hp =>
        (trainEvalOneConfiguration model_class hparams_names train valid
            conf.evaluation_k hp).mapError PyError.trial)
      hparams_flat

/-- The winner's info dict (`recommender.py:69`–`74`): the full metrics
spread first, then the model class, the metric name used for selection, and
the seed-sequence start. -/
def mkInfo (metrics : Metrics) (model_class : ModelClass Mat M ε α)
    (conf : Configuration Mat M ε α) (seedgen : SeedSequence) : List (Str × PyVal α) :=
  metrics.map (fun p => (p.1, PyVal.num p.2)) ++
    [(chars "model", PyVal.strv model_class.name),
     (chars "used", PyVal.strv conf.recommender_evaluation_metric),
     (chars "seed_start", PyVal.natv seedgen.start)]

/-- `el[0][conf.recommender_evaluation_metric]`: the selection key of one
result, paired with the result; a missing metric raises `KeyError`. -/
def metricKeyed (metric : Str) (t : TrialResult M α) :
    Except (PyError ε) (ℚ × TrialResult M α) :=
  match dictLookup t.metrics metric with
  | some q => Except.ok (q, t)
  | none => Except.error PyError.keyError

/-- `search_best_model` (`recommender.py:41`–`75`): dispatch all trials,
select the maximum by the configured metric (`max` keeps the first maximal
element; on an empty result list it raises `ValueError`), and return the
winner's model, hyperparameters and info dict. -/
def searchBestModel (train_mat valid_mat : Mat) (hparams_names : List Str)
    (hparams_flat : List (List α)) (seedgen : SeedSequence)
    (model_class : ModelClass Mat M ε α) (conf : Configuration Mat M ε α) :
    Except (PyError ε) (BestDict M α) := do
  let res ← trialDispatch conf model_class hparams_names hparams_flat train_mat valid_mat
  let keyed ← seqMap (metricKeyed conf.recommender_evaluation_metric) res
  match keyed with
  | [] => Except.error PyError.valueError
  | x :: xs =>
    let best := (pyMax1 Prod.fst x xs).2
    Except.ok ⟨best.model, best.hp, mkInfo best.metrics model_class conf seedgen⟩

/-- `save_hyperparams_and_metrics` (`recommender.py:19`–`26`): the exact
text written to the file — line 1 the comma-joined keys of `hparams` then
`info`, line 2 the comma-joined `str(...)` of their values in the same
order, each line terminated by a newline.  `vstr` models Python's `str`. -/
def saveHyperparamsAndMetrics (vstr : V → Str) (hparams info : List (Str × V)) : Str :=
  let header := joinChar ',' (hparams.map Prod.fst ++ info.map Prod.fst)
  let content := joinChar ',' ((hparams.map Prod.snd ++ info.map Prod.snd).map vstr)
  header ++ '\n' :: (content ++ ['\n'])

/-- The parse direction of the round-trip stated by the spec: line 1 as the
comma-split header, line 2 as the comma-split values, zipped into a dict. -/
def parseArtifact (file : Str) : List (Str × Str) :=
  match splitChar '\n' file with
  | line1 :: line2 :: _ => List.zip (splitChar ',' line1) (splitChar ',' line2)
  | _ => []

/-- `path.parent / path.stem` as used at `recommender.py:106`: the path
with its final extension (the trailing `.xxx` of the last component, when
present) removed. -/
def removeLastExt (p : Str) : Str :=
  let tail := p.reverse.takeWhile (fun c => c != '.' && c != '/')
  match p.reverse.drop tail.length with
  | '.' :: _ => p.take (p.length - tail.length - 1)
  | _ => p

/-- Contents of one written file: either an opaque model artifact written by
the model's own `save` (external), or the structured arguments of a
`save_hyperparams_and_metrics` call (whose on-disk text is
`saveHyperparamsAndMetrics`). -/
inductive FileData (α : Type) where
  | modelData
  | artifact (hparams : List (Str × α)) (info : List (Str × PyVal α))
deriving DecidableEq

/-- One file written by the pipeline: destination path and contents. -/
structure WriteEvent (α : Type) where
  path : Str
  data : FileData α
deriving DecidableEq

/-- External collaborators and file-system observations consumed by the
orchestrator: `datasets.get_dataset`, `utils.train_test_split`,
`Path.exists`, membership in `datasets.DATASETS_RETRIEVE_MAP`, and the
`iterdir()` listing of a directory at the moment it is checked. -/
structure Environment (Mat : Type) where
  get_dataset : Str → Mat
  train_test_split : Mat → ℚ → SeedSequence → ℚ → Mat × Mat × Mat
  path_exists : Str → Bool
  retrievable : Str → Bool
  dir_entries : Str → List Str

/-- `search_ground_truth` (`recommender.py:78`–`111`): grid-search the
dataset's ground-truth model class over its full grid, save the winning
model to the configured ground-truth path and the hyperparameters/metrics
artifact next to it.  Returns the winning model and the write events. -/
def searchGroundTruth (dataset : Str) (train_mat valid_mat : Mat)
    (seedgen : SeedSequence) (conf : Configuration Mat M ε α) :
    Except (PyError ε) M × List (WriteEvent α) :=
  let model_class := conf.ground_truth_models dataset
  let hyperparams := conf.ground_truth_hparams dataset
  match searchBestModel train_mat valid_mat (hyperparams.map Prod.fst)
      (itProduct (hyperparams.map Prod.snd)) seedgen model_class conf with
  | Except.error e => (Except.error e, [])
  | Except.ok bd =>
    let model_save_path := conf.ground_truth_files dataset
    (Except.ok bd.model,
     [⟨model_save_path, FileData.modelData⟩,
      ⟨removeLastExt model_save_path ++ chars "_hparams.txt",
        FileData.artifact bd.hparams bd.info⟩])

/-- `generate_ground_truth` (`recommender.py:156`–`167`): load the dataset,
split it into train/validation with the configured sizes, and run the
ground-truth search. -/
def generateGroundTruth (env : Environment Mat) (dataset_name : Str)
    (seedgen : SeedSequence) (conf : Configuration Mat M ε α) :
    Except (PyError ε) M × List (WriteEvent α) :=
  let dataset := env.get_dataset dataset_name
  let split := env.train_test_split dataset conf.train_size seedgen conf.validation_size
  searchGroundTruth dataset_name split.1 split.2.1 seedgen conf

/-- The per-factor loop of `search_recommender` (`recommender.py:131`–`153`):
for each factor value, grid-search the remaining hyperparameters prefixed
with that factor, then save the winner as `<base>_factors_<factor>.npz` and
its artifact as `<base>_factors_<factor>_hparams.txt`.  An exception aborts
the loop, keeping the files already written. -/
def searchRecommenderLoop (vstr : α → Str) (conf : Configuration Mat M ε α)
    (model_class : ModelClass Mat M ε α) (hparams_names : List Str)
    (inner_flat : List (List α)) (train_mat valid_mat : Mat)
    (seedgen : SeedSequence) (base : Str) :
    List α → Except (PyError ε) Unit × List (WriteEvent α)
  | [] => (Except.ok (), [])
  | factor :: fs =>
    match searchBestModel train_mat valid_mat hparams_names
        (inner_flat.map (fun hp => factor :: hp)) seedgen model_class conf with
    | Except.error e => (Except.error e, [])
    | Except.ok bd =>
      let ws := [⟨base ++ chars "_factors_" ++ vstr factor ++ chars ".npz",
                   FileData.modelData⟩,
                 ⟨base ++ chars "_factors_" ++ vstr factor ++ chars "_hparams.txt",
                   FileData.artifact bd.hparams bd.info⟩]
      let rest := searchRecommenderLoop vstr conf model_class hparams_names
        inner_flat train_mat valid_mat seedgen base fs
      (rest.1, ws ++ rest.2)

/-- `search_recommender` (`recommender.py:114`–`153`): pop `factors` out of
the grid (a missing key raises `KeyError`), enumerate the remaining
hyperparameters, and run the per-factor loop.  Note the searched tuples are
`(factor,) + hp` zipped against the *original* key order, which is only
correct when `factors` is the first grid key (the source's own NOTE). -/
def searchRecommender (vstr : α → Str) (dataset : Str) (train_mat valid_mat : Mat)
    (seedgen : SeedSequence) (conf : Configuration Mat M ε α) :
    Except (PyError ε) Unit × List (WriteEvent α) :=
  let model_class := conf.recommender_models dataset
  let hyperparams := conf.recommender_hparams dataset
  match dictPop (chars "factors") hyperparams with
  | none => (Except.error PyError.keyError, [])
  | some (factors, hyperparams_inner) =>
    let inner_flat := itProduct (hyperparams_inner.map Prod.snd)
    let base := conf.recommender_dirs dataset ++ chars "/" ++ conf.model_base_name
    searchRecommenderLoop vstr conf model_class (hyperparams.map Prod.fst)
      inner_flat train_mat valid_mat seedgen base factors

/-- Lines 176–186 of `generate_recommenders`: if the ground-truth artifact
exists, load it; else if the dataset is retrievable, bootstrap it with
stage 1; else raise `NotImplementedError`. -/
def resolveGroundTruth (env : Environment Mat) (ground_truth_model_path : Str)
    (dataset : Str) (seedgen : SeedSequence) (conf : Configuration Mat M ε α) :
    Except (PyError ε) M × List (WriteEvent α) :=
  if env.path_exists ground_truth_model_path then
    (Except.ok ((conf.ground_truth_models dataset).load ground_truth_model_path), [])
  else if env.retrievable dataset then
    generateGroundTruth env dataset seedgen conf
  else
    (Except.error PyError.notImplemented, [])

/-- `generate_recommenders` (`recommender.py:170`–`201`): resolve the
ground-truth model, then — unless the recommender output directory already
holds more than two entries — split the ground-truth preferences and run
the per-factor recommender search. -/
def generateRecommenders (vstr : α → Str) (env : Environment Mat)
    (ground_truth_model_path : Str) (dataset : Str) (seedgen : SeedSequence)
    (conf : Configuration Mat M ε α) :
    Except (PyError ε) Unit × List (WriteEvent α) :=
  match resolveGroundTruth env ground_truth_model_path dataset seedgen conf with
  | (Except.error e, ws) => (Except.error e, ws)
  | (Except.ok ground_truth_model, ws) =>
    if 2 < (env.dir_entries (conf.recommender_dirs dataset)).length then
      (Except.ok (), ws)
    else
      let preferences := (conf.ground_truth_models dataset).preferences ground_truth_model
      let split := env.train_test_split preferences conf.train_size seedgen conf.validation_size
      let r := searchRecommender vstr dataset split.1 split.2.1 seedgen conf
      (r.1, ws ++ r.2)

/-- The hyperparameter dict persisted by one iteration of the per-factor
loop: the winner of the `search_best_model` call at that factor value
(empty when that search failed, in which case nothing is persisted). -/
def loopBestHparams (conf : Configuration Mat M ε α) (model_class : ModelClass Mat M ε α)
    (hparams_names : List Str) (inner_flat : List (List α)) (train_mat valid_mat : Mat)
    (seedgen : SeedSequence) (factor : α) : List (Str × α) :=
  match searchBestModel train_mat valid_mat hparams_names
      (inner_flat.map (fun hp => factor :: hp)) seedgen model_class conf with
  | Except.ok bd => bd.hparams
  | Except.error _ => []

/-- The info dict persisted by one iteration of the per-factor loop. -/
def loopBestInfo (conf : Configuration Mat M ε α) (model_class : ModelClass Mat M ε α)
    (hparams_names : List Str) (inner_flat : List (List α)) (train_mat valid_mat : Mat)
    (seedgen : SeedSequence) (factor : α) : List (Str × PyVal α) :=
  match searchBestModel train_mat valid_mat hparams_names
      (inner_flat.map (fun hp => factor :: hp)) seedgen model_class conf with
  | Except.ok bd => bd.info
  | Except.error _ => []

/-- Whether a written file, if it is a hyperparameters artifact, records
`factors = v` in its hyperparameter dict. -/
def artifactMapsFactorsTo [DecidableEq α] (v : α) (fd : FileData α) : Bool :=
  match fd with
  | FileData.artifact d _ => decide (dictLookup d (chars "factors") = some v)
  | FileData.modelData => true

theorem bind_ok_eq (a : β) (k : β → Except ε' γ) :
    Bind.bind (Except.ok a) k = k a := rfl

theorem bind_error_eq (e : ε') (k : β → Except ε' γ) :
    Bind.bind (Except.error e : Except ε' β) k = Except.error e := rfl

theorem pyMax1_ge (key : β → ℚ) (x : β) (xs : List β) :
    ∀ a ∈ x :: xs, key a ≤ key (pyMax1 key x xs) := by
  induction xs generalizing x with
  | nil =>
    intro a ha
    rw [List.mem_singleton.mp ha]
    exact le_refl _
  | cons y ys ih =>
    intro a ha
    have hstep : pyMax1 key x (y :: ys) = pyMax1 key (if key x < key y then y else x) ys := rfl
    by_cases hxy : key x < key y
    · rw [hstep, if_pos hxy]
      rcases List.mem_cons.mp ha with h1 | h1
      · exact le_of_lt (lt_of_lt_of_le (h1 ▸ hxy) (ih y y (List.mem_cons_self y ys)))
      · exact ih y a h1
    · rw [hstep, if_neg hxy]
      rcases List.mem_cons.mp ha with h1 | h1
      · exact h1 ▸ ih x x (List.mem_cons_self x ys)
      · rcases List.mem_cons.mp h1 with h2 | h2
        · exact le_trans (h2 ▸ le_of_not_lt hxy) (ih x x (List.mem_cons_self x ys))
        · exact ih x a (List.mem_cons_of_mem x h2)

theorem pyMax1_first (key : β → ℚ) (x : β) (xs : List β) :
    ∃ l₁ l₂, x :: xs = l₁ ++ pyMax1 key x xs :: l₂ ∧
      ∀ a ∈ l₁, key a < key (pyMax1 key x xs) := by
  induction xs generalizing x with
  | nil => exact ⟨[], [], rfl, by simp⟩
  | cons y ys ih =>
    have hstep : pyMax1 key x (y :: ys) = pyMax1 key (if key x < key y then y else x) ys := rfl
    by_cases hxy : key x < key y
    · rw [hstep, if_pos hxy]
      obtain ⟨l₁, l₂, hdec, hlt⟩ := ih y
      refine ⟨x :: l₁, l₂, ?_, ?_⟩
      · rw [List.cons_append, ← hdec]
      · intro a ha
        rcases List.mem_cons.mp ha with h1 | h1
        · exact h1 ▸ lt_of_lt_of_le hxy (pyMax1_ge key y ys y (List.mem_cons_self y ys))
        · exact hlt a h1
    · rw [hstep, if_neg hxy]
      obtain ⟨l₁, l₂, hdec, hlt⟩ := ih x
      generalize hrdef : pyMax1 key x ys = r at hdec hlt ⊢
      cases l₁ with
      | nil =>
        rw [List.nil_append] at hdec
        injection hdec with h1 h2
        refine ⟨[], y :: ys, ?_, by simp⟩
        rw [List.nil_append, ← h1]
      | cons w l₁' =>
        rw [List.cons_append] at hdec
        injection hdec with h1 h2
        refine ⟨x :: y :: l₁', l₂, ?_, ?_⟩
        · rw [h2]
          rfl
        · intro a ha
          have hw : key x < key r := h1 ▸ hlt w (List.mem_cons_self w l₁')
          rcases List.mem_cons.mp ha with h3 | h3
          · exact h3 ▸ hw
          · rcases List.mem_cons.mp h3 with h4 | h4
            · exact h4 ▸ lt_of_le_of_lt (le_of_not_lt hxy) hw
            · exact hlt a (List.mem_cons_of_mem w h4)

theorem seqMap_ok_of_forall (f : γ → Except ε' β) (g : γ → β) (l : List γ)
    (h : ∀ a ∈ l, f a = Except.ok (g a)) : seqMap f l = Except.ok (l.map g) := by
  induction l with
  | nil => rfl
  | cons a as ih =>
    have h1 : f a = Except.ok (g a) := h a (List.mem_cons_self a as)
    have h2 : seqMap f as = Except.ok (as.map g) :=
      ih (fun b hb => h b (List.mem_cons_of_mem a hb))
    simp only [seqMap, h1, h2, bind_ok_eq, List.map_cons]

theorem seqMap_first_error (f : γ → Except ε' β) (l : List γ)
    (h : ∃ a ∈ l, ∃ e, f a = Except.error e) :
    ∃ a ∈ l, ∃ e, f a = Except.error e ∧ seqMap f l = Except.error e := by
  induction l with
  | nil => simp at h
  | cons a as ih =>
    cases hfa : f a with
    | error e =>
      refine ⟨a, List.mem_cons_self a as, e, hfa, ?_⟩
      simp only [seqMap, hfa, bind_error_eq]
    | ok b =>
      have h' : ∃ x ∈ as, ∃ e, f x = Except.error e := by
        obtain ⟨x, hx, e, hxe⟩ := h
        rcases List.mem_cons.mp hx with h1 | h1
        · rw [h1, hfa] at hxe
          exact absurd hxe (by simp)
        · exact ⟨x, h1, e, hxe⟩
      obtain ⟨x, hx, e, hxe, hse⟩ := ih h'
      refine ⟨x, List.mem_cons_of_mem a hx, e, hxe, ?_⟩
      simp only [seqMap, hfa, bind_ok_eq, hse, bind_error_eq]

theorem seqMap_ok_mem (f : γ → Except ε' β) (l : List γ) (out : List β)
    (h : seqMap f l = Except.ok out) : ∀ b ∈ out, ∃ a ∈ l, f a = Except.ok b := by
  induction l generalizing out with
  | nil =>
    simp only [seqMap] at h
    injection h with h1
    rw [← h1]
    simp
  | cons a as ih =>
    cases hfa : f a with
    | error e =>
      simp only [seqMap, hfa, bind_error_eq] at h
      exact Except.noConfusion h
    | ok b0 =>
      cases hs : seqMap f as with
      | error e =>
        simp only [seqMap, hfa, bind_ok_eq, hs, bind_error_eq] at h
        exact Except.noConfusion h
      | ok bs =>
        simp only [seqMap, hfa, bind_ok_eq, hs] at h
        injection h with h1
        rw [← h1]
        intro b hb
        rcases List.mem_cons.mp hb with h2 | h2
        · exact ⟨a, List.mem_cons_self a as, h2 ▸ hfa⟩
        · obtain ⟨x, hx, hxe⟩ := ih bs hs b h2
          exact ⟨x, List.mem_cons_of_mem a hx, hxe⟩

theorem poolStarmap_eq_seqMap (f : γ → Except ε' β) (l : List γ) :
    poolStarmap f l = seqMap f l := by
  induction l with
  | nil => rfl
  | cons a as ih => simp only [poolStarmap, seqMap, ih]

theorem map_decomp (g : γ → β) (res : List γ) (l₁ : List β) (b : β) (l₂ : List β)
    (h : res.map g = l₁ ++ b :: l₂) :
    ∃ r₁ t r₂, res = r₁ ++ t :: r₂ ∧ r₁.map g = l₁ ∧ g t = b ∧ r₂.map g = l₂ := by
  induction res generalizing l₁ with
  | nil => cases l₁ <;> simp at h
  | cons x xs ih =>
    cases l₁ with
    | nil =>
      rw [List.map_cons, List.nil_append] at h
      injection h with h1 h2
      exact ⟨[], x, xs, rfl, rfl, h1, h2⟩
    | cons c l₁' =>
      rw [List.map_cons, List.cons_append] at h
      injection h with h1 h2
      obtain ⟨r₁, t, r₂, hd, hm1, hgt, hm2⟩ := ih l₁' h2
      exact ⟨x :: r₁, t, r₂, by rw [List.cons_append, ← hd], by rw [List.map_cons, hm1, h1],
        hgt, hm2⟩

/-- The selection key of one trial result (defined when the metric is
present in its metrics dict). -/
def valOf (metric : Str) (t : TrialResult M α) : ℚ :=
  (dictLookup t.metrics metric).getD 0

theorem setParallel_parallel (conf : Configuration Mat M ε α) (b : Bool) :
    (setParallel conf b).parallel = b := rfl

theorem setParallel_evaluation_k (conf : Configuration Mat M ε α) (b : Bool) :
    (setParallel conf b).evaluation_k = conf.evaluation_k := rfl

theorem setParallel_metric (conf : Configuration Mat M ε α) (b : Bool) :
    (setParallel conf b).recommender_evaluation_metric =
      conf.recommender_evaluation_metric := rfl

theorem mkInfo_setParallel (metrics : Metrics) (model_class : ModelClass Mat M ε α)
    (conf : Configuration Mat M ε α) (b : Bool) (seedgen : SeedSequence) :
    mkInfo metrics model_class (setParallel conf b) seedgen =
      mkInfo metrics model_class conf seedgen := rfl

theorem metricKeyed_ok (metric : Str) (t : TrialResult M α)
    (h : (dictLookup t.metrics metric).isSome = true) :
    metricKeyed (ε := ε) metric t = Except.ok (valOf metric t, t) := by
  obtain ⟨q, hq⟩ := Option.isSome_iff_exists.mp h
  simp [metricKeyed, valOf, hq]

theorem searchBestModel_char {conf : Configuration Mat M ε α}
    {model_class : ModelClass Mat M ε α} {hparams_names : List Str}
    {hparams_flat : List (List α)} {train_mat valid_mat : Mat}
    (seedgen : SeedSequence) {r : TrialResult M α} {rs : List (TrialResult M α)}
    (hres : trialDispatch conf model_class hparams_names hparams_flat train_mat valid_mat =
      Except.ok (r :: rs))
    (hkeys : ∀ t ∈ r :: rs,
      (dictLookup t.metrics conf.recommender_evaluation_metric).isSome = true) :
    searchBestModel train_mat valid_mat hparams_names hparams_flat seedgen model_class conf =
      Except.ok
        ⟨((pyMax1 Prod.fst (valOf conf.recommender_evaluation_metric r, r)
            (rs.map (fun t => (valOf conf.recommender_evaluation_metric t, t)))).2).model,
         ((pyMax1 Prod.fst (valOf conf.recommender_evaluation_metric r, r)
            (rs.map (fun t => (valOf conf.recommender_evaluation_metric t, t)))).2).hp,
         mkInfo
           ((pyMax1 Prod.fst (valOf conf.recommender_evaluation_metric r, r)
              (rs.map (fun t => (valOf conf.recommender_evaluation_metric t, t)))).2).metrics
           model_class conf seedgen⟩ := by
  have hkeyed : seqMap (metricKeyed (ε := ε) conf.recommender_evaluation_metric) (r :: rs) =
      Except.ok ((r :: rs).map
        (fun t => (valOf conf.recommender_evaluation_metric t, t))) :=
    seqMap_ok_of_forall _ _ _ (fun t ht => metricKeyed_ok _ t (hkeys t ht))
  simp only [searchBestModel, hres, bind_ok_eq, hkeyed, List.map_cons]

theorem searchBestModel_parallel_eq (train_mat valid_mat : Mat)
    (hparams_names : List Str) (hparams_flat : List (List α))
    (seedgen : SeedSequence) (model_class : ModelClass Mat M ε α)
    (conf : Configuration Mat M ε α) (b₁ b₂ : Bool) :
    searchBestModel train_mat valid_mat hparams_names hparams_flat seedgen model_class
        (setParallel conf b₁) =
      searchBestModel train_mat valid_mat hparams_names hparams_flat seedgen model_class
        (setParallel conf b₂) := by
  cases hparams_flat with
  | nil => cases b₁ <;> cases b₂ <;> rfl
  | cons f fs =>
    cases b₁ <;> cases b₂ <;>
      simp [searchBestModel, trialDispatch, setParallel_parallel,
        setParallel_evaluation_k, setParallel_metric, mkInfo_setParallel,
        poolStarmap_eq_seqMap, List.isEmpty_cons]

theorem searchBestModel_decomp {conf : Configuration Mat M ε α}
    {model_class : ModelClass Mat M ε α} {hparams_names : List Str}
    {hparams_flat : List (List α)} {train_mat valid_mat : Mat}
    {res : List (TrialResult M α)} (seedgen : SeedSequence)
    (hres : trialDispatch conf model_class hparams_names hparams_flat train_mat valid_mat =
      Except.ok res)
    (hne : res ≠ [])
    (hkeys : ∀ t ∈ res,
      (dictLookup t.metrics conf.recommender_evaluation_metric).isSome = true) :
    ∃ r₁ t r₂,
      res = r₁ ++ t :: r₂ ∧
      searchBestModel train_mat valid_mat hparams_names hparams_flat seedgen model_class
          conf =
        Except.ok ⟨t.model, t.hp, mkInfo t.metrics model_class conf seedgen⟩ ∧
      (∀ u ∈ res, valOf conf.recommender_evaluation_metric u ≤
        valOf conf.recommender_evaluation_metric t) ∧
      (∀ u ∈ r₁, valOf conf.recommender_evaluation_metric u <
        valOf conf.recommender_evaluation_metric t) := by
  cases res with
  | nil => exact absurd rfl hne
  | cons r rs =>
    have hchar := searchBestModel_char seedgen hres hkeys
    obtain ⟨l₁, l₂, hdec, hlt⟩ :=
      pyMax1_first Prod.fst (valOf conf.recommender_evaluation_metric r, r)
        (rs.map (fun t => (valOf conf.recommender_evaluation_metric t, t)))
    have hmap : (r :: rs).map (fun t => (valOf conf.recommender_evaluation_metric t, t)) =
        l₁ ++ (pyMax1 Prod.fst (valOf conf.recommender_evaluation_metric r, r)
          (rs.map (fun t => (valOf conf.recommender_evaluation_metric t, t)))) :: l₂ := by
      rw [List.map_cons]
      exact hdec
    obtain ⟨r₁, t, r₂, hres_dec, hm1, hgt, hm2⟩ := map_decomp _ (r :: rs) l₁ _ l₂ hmap
    refine ⟨r₁, t, r₂, hres_dec, ?_, ?_, ?_⟩
    · rw [hchar, ← hgt]
    · intro u hu
      have hmem : (valOf conf.recommender_evaluation_metric u, u) ∈
          (r :: rs).map (fun t => (valOf conf.recommender_evaluation_metric t, t)) :=
        List.mem_map_of_mem _ hu
      rw [List.map_cons] at hmem
      have h1 := pyMax1_ge Prod.fst (valOf conf.recommender_evaluation_metric r, r)
        (rs.map (fun t => (valOf conf.recommender_evaluation_metric t, t))) _ hmem
      rw [← hgt] at h1
      exact h1
    · intro u hu
      have hmem : (valOf conf.recommender_evaluation_metric u, u) ∈ l₁ := by
        rw [← hm1]
        exact List.mem_map_of_mem _ hu
      have h1 := hlt _ hmem
      rw [← hgt] at h1
      exact h1

/-- C1: for every non-empty list of trial results produced by the dispatch
step, `search_best_model` returns a result whose metrics value at
`conf.recommender_evaluation_metric` is maximal over all results; and if
one trial's value strictly exceeds every other trial's, that trial's model
and hyperparameters are the ones returned. -/
theorem searchBestModel_selects_max {conf : Configuration Mat M ε α}
    {model_class : ModelClass Mat M ε α} {hparams_names : List Str}
    {hparams_flat : List (List α)} {train_mat valid_mat : Mat}
    {res : List (TrialResult M α)} (seedgen : SeedSequence)
    (hres : trialDispatch conf model_class hparams_names hparams_flat train_mat valid_mat =
      Except.ok res)
    (hne : res ≠ [])
    (hkeys : ∀ t ∈ res,
      (dictLookup t.metrics conf.recommender_evaluation_metric).isSome = true) :
    ∃ bd t,
      searchBestModel train_mat valid_mat hparams_names hparams_flat seedgen model_class
          conf =
        Except.ok bd ∧
      t ∈ res ∧
      bd.model = t.model ∧ bd.hparams = t.hp ∧
      bd.info = mkInfo t.metrics model_class conf seedgen ∧
      (∀ u ∈ res, valOf conf.recommender_evaluation_metric u ≤
        valOf conf.recommender_evaluation_metric t) ∧
      (∀ u ∈ res,
        (∀ v ∈ res, v ≠ u → valOf conf.recommender_evaluation_metric v <
          valOf conf.recommender_evaluation_metric u) →
        bd.model = u.model ∧ bd.hparams = u.hp) := by
  obtain ⟨r₁, t, r₂, hdec, hok, hmax, _⟩ := searchBestModel_decomp seedgen hres hne hkeys
  have htmem : t ∈ res := by
    rw [hdec]
    exact List.mem_append_right _ (List.mem_cons_self t r₂)
  refine ⟨_, t, hok, htmem, rfl, rfl, rfl, hmax, ?_⟩
  intro u hu hstrict
  by_cases hut : t = u
  · subst hut
    exact ⟨rfl, rfl⟩
  · have h1 : valOf conf.recommender_evaluation_metric t <
        valOf conf.recommender_evaluation_metric u := hstrict t htmem hut
    exact absurd h1 (not_lt.mpr (hmax u hu))

/-- C10: when several trial results tie at the maximum metric value,
`search_best_model` returns the first maximal result in the submission
order of the configuration list: the winner decomposes the result list as
`r₁ ++ t :: r₂` with every result in `r₁` strictly below the winner. -/
theorem searchBestModel_tie_first {conf : Configuration Mat M ε α}
    {model_class : ModelClass Mat M ε α} {hparams_names : List Str}
    {hparams_flat : List (List α)} {train_mat valid_mat : Mat}
    {res : List (TrialResult M α)} (seedgen : SeedSequence)
    (hres : trialDispatch conf model_class hparams_names hparams_flat train_mat valid_mat =
      Except.ok res)
    (hne : res ≠ [])
    (hkeys : ∀ t ∈ res,
      (dictLookup t.metrics conf.recommender_evaluation_metric).isSome = true) :
    ∃ bd r₁ t r₂,
      searchBestModel train_mat valid_mat hparams_names hparams_flat seedgen model_class
          conf =
        Except.ok bd ∧
      res = r₁ ++ t :: r₂ ∧
      bd.model = t.model ∧ bd.hparams = t.hp ∧
      bd.info = mkInfo t.metrics model_class conf seedgen ∧
      (∀ u ∈ res, valOf conf.recommender_evaluation_metric u ≤
        valOf conf.recommender_evaluation_metric t) ∧
      (∀ u ∈ r₁, valOf conf.recommender_evaluation_metric u <
        valOf conf.recommender_evaluation_metric t) := by
  obtain ⟨r₁, t, r₂, hdec, hok, hmax, hfirst⟩ := searchBestModel_decomp seedgen hres hne hkeys
  exact ⟨_, r₁, t, r₂, hok, hdec, rfl, rfl, rfl, hmax, hfirst⟩

/-- C3: for a fixed train matrix, validation matrix, hyperparameter list and
configuration, `search_best_model` with `conf.parallel = true` and with
`conf.parallel = false` return identical outcomes — in particular identical
winning metrics and hyperparameters (model operations are pure functions in
this embedding, so model implementations are deterministic). -/
theorem searchBestModel_parallel_sequential_eq (train_mat valid_mat : Mat)
    (hparams_names : List Str) (hparams_flat : List (List α))
    (seedgen : SeedSequence) (model_class : ModelClass Mat M ε α)
    (conf : Configuration Mat M ε α) :
    searchBestModel train_mat valid_mat hparams_names hparams_flat seedgen model_class
        (setParallel conf true) =
      searchBestModel train_mat valid_mat hparams_names hparams_flat seedgen model_class
        (setParallel conf false) :=
  searchBestModel_parallel_eq train_mat valid_mat hparams_names hparams_flat seedgen
    model_class conf true false

/-- C7: any exception raised during model construction, training, or
validation inside a trial propagates uncaught out of `search_best_model`
(wrapped as a `PyError.trial` in this embedding), in both dispatch modes:
the whole batch aborts with an error and no partial results are returned. -/
theorem searchBestModel_fail_fast {conf : Configuration Mat M ε α}
    {model_class : ModelClass Mat M ε α} (train_mat valid_mat : Mat)
    (hparams_names : List Str) (hparams_flat : List (List α)) (seedgen : SeedSequence)
    (h : ∃ hp ∈ hparams_flat, ∃ e : ε,
      trainEvalOneConfiguration model_class hparams_names train_mat valid_mat
        conf.evaluation_k hp = Except.error e) :
    ∀ b : Bool, ∃ e : ε,
      searchBestModel train_mat valid_mat hparams_names hparams_flat seedgen model_class
          (setParallel conf b) =
        Except.error (PyError.trial e) := by
  have h' : ∃ a ∈ hparams_flat, ∃ e',
      (fun hp =>
        (trainEvalOneConfiguration model_class hparams_names train_mat valid_mat
            conf.evaluation_k hp).mapError PyError.trial) a = Except.error e' := by
    obtain ⟨hp, hhp, e, he⟩ := h
    refine ⟨hp, hhp, PyError.trial e, ?_⟩
    show (trainEvalOneConfiguration model_class hparams_names train_mat valid_mat
        conf.evaluation_k hp).mapError PyError.trial = Except.error (PyError.trial e)
    rw [he]
    rfl
  obtain ⟨a, _, e', hae, hse⟩ := seqMap_first_error _ hparams_flat h'
  obtain ⟨e0, he0⟩ : ∃ e0, e' = PyError.trial e0 := by
    cases hte : trainEvalOneConfiguration model_class hparams_names train_mat valid_mat
        conf.evaluation_k a with
    | ok v =>
      simp only [hte, Except.mapError] at hae
      exact Except.noConfusion hae
    | error e0 =>
      simp only [hte, Except.mapError] at hae
      injection hae with h1
      exact ⟨e0, h1.symm⟩
  subst he0
  intro b
  refine ⟨e0, ?_⟩
  rw [searchBestModel_parallel_eq train_mat valid_mat hparams_names hparams_flat seedgen
    model_class conf b false]
  have hd : trialDispatch (setParallel conf false) model_class hparams_names hparams_flat
      train_mat valid_mat = Except.error (PyError.trial e0) := hse
  simp only [searchBestModel, hd, bind_error_eq]

/-- C9: a grid in which some key has an empty candidate sequence enumerates
zero configurations, and `search_best_model` run on that empty enumeration
fails with a `ValueError` in both dispatch modes (empty-sequence `max` /
zero-size pool) instead of selecting a winner. -/
theorem emptyCandidate_error (conf : Configuration Mat M ε α)
    (model_class : ModelClass Mat M ε α) (grid : Grid α)
    (train_mat valid_mat : Mat) (seedgen : SeedSequence)
    (h : ∃ p ∈ grid, p.2 = []) :
    itProduct (grid.map Prod.snd) = [] ∧
    ∀ b : Bool,
      searchBestModel train_mat valid_mat (grid.map Prod.fst)
          (itProduct (grid.map Prod.snd)) seedgen model_class (setParallel conf b) =
        Except.error PyError.valueError := by
  have h0 : itProduct (grid.map Prod.snd) = [] := by
    apply itProduct_eq_nil_of_mem_nil
    obtain ⟨p, hp, he⟩ := h
    exact ⟨p.2, List.mem_map_of_mem _ hp, he⟩
  refine ⟨h0, fun b => ?_⟩
  rw [h0, searchBestModel_parallel_eq train_mat valid_mat (grid.map Prod.fst) []
    seedgen model_class conf b false]
  rfl

/-- C2: for every hyperparameter grid whose keys all map to non-empty
candidate sequences, the enumeration `list(it.product(*grid.values()))`
has exactly `prodLen` (the product of the candidate-sequence lengths)
configurations, and its `i`-th configuration is the mixed-radix decoding of
`i` — i.e. the tuples appear in standard nested-loop order, lexicographic
over the input key order. -/
theorem itProduct_nested_loop [Inhabited α] (grid : Grid α)
    (h : ∀ p ∈ grid, p.2 ≠ []) :
    (itProduct (grid.map Prod.snd)).length = prodLen (grid.map Prod.snd) ∧
    itProduct (grid.map Prod.snd) =
      (List.range (prodLen (grid.map Prod.snd))).map (nthConfig (grid.map Prod.snd)) := by
  refine ⟨?_, itProduct_eq_range_map _⟩
  rw [itProduct_eq_range_map]
  simp

theorem dictLookup_map (f : V → W) (d : List (Str × V)) (k : Str) :
    dictLookup (d.map (fun p => (p.1, f p.2))) k = (dictLookup d k).map f := by
  induction d with
  | nil => rfl
  | cons p rest ih =>
    simp only [List.map_cons, dictLookup, ih]
    cases dictLookup rest k with
    | some v => simp
    | none =>
      by_cases hk : p.1 = k <;> simp [hk]

theorem not_mem_joinChar (sep c : Char) (parts : List Str) (hc : c ≠ sep)
    (h : ∀ p ∈ parts, c ∉ p) : c ∉ joinChar sep parts := by
  induction parts with
  | nil => simp [joinChar]
  | cons x xs ih =>
    cases xs with
    | nil =>
      simpa [joinChar] using h x (List.mem_cons_self x [])
    | cons y ys =>
      intro hmem
      rw [joinChar] at hmem
      rcases List.mem_append.mp hmem with h1 | h1
      · exact h x (List.mem_cons_self x (y :: ys)) h1
      · rcases List.mem_cons.mp h1 with h2 | h2
        · exact hc h2
        · exact ih (fun p hp => h p (List.mem_cons_of_mem x hp)) h2

/-- C5 (amended): for mappings that are not both empty and whose keys and
string-converted values contain no comma and no newline, the file written
by `save_hyperparams_and_metrics` has exactly two newline-terminated lines
(keys line, values line), and parsing it back by splitting each line on
commas reconstructs a mapping equal — under string equality of values — to
the union `{**hparams, **info}` of the two input dicts.  Without the
no-comma restriction the round-trip fails (see the counterexample): the
source performs no quoting or escaping. -/
theorem saveHyperparamsAndMetrics_roundtrip (vstr : V → Str)
    (hparams info : List (Str × V))
    (hne : hparams ++ info ≠ [])
    (hkeys : ∀ p ∈ hparams ++ info, ',' ∉ p.1 ∧ '\n' ∉ p.1)
    (hvals : ∀ p ∈ hparams ++ info, ',' ∉ vstr p.2 ∧ '\n' ∉ vstr p.2) :
    splitChar '\n' (saveHyperparamsAndMetrics vstr hparams info) =
      [joinChar ',' ((hparams ++ info).map Prod.fst),
       joinChar ',' ((hparams ++ info).map (fun p => vstr p.2)), []] ∧
    ∀ k, dictLookup (parseArtifact (saveHyperparamsAndMetrics vstr hparams info)) k =
      (dictLookup (hparams ++ info) k).map vstr := by
  have hkne : (hparams ++ info).map Prod.fst ≠ [] := by
    intro hcon
    exact hne (by simpa using hcon)
  have hvne : (hparams ++ info).map (fun p => vstr p.2) ≠ [] := by
    intro hcon
    exact hne (by simpa using hcon)
  have hfile : saveHyperparamsAndMetrics vstr hparams info =
      joinChar ',' ((hparams ++ info).map Prod.fst) ++
        '\n' :: (joinChar ',' ((hparams ++ info).map (fun p => vstr p.2)) ++ ['\n']) := by
    simp only [saveHyperparamsAndMetrics, List.map_append, List.map_map]
    rfl
  have hn1 : '\n' ∉ joinChar ',' ((hparams ++ info).map Prod.fst) := by
    apply not_mem_joinChar _ _ _ (by decide)
    intro p hp
    obtain ⟨q, hq, hqe⟩ := List.mem_map.mp hp
    exact hqe ▸ (hkeys q hq).2
  have hn2 : '\n' ∉ joinChar ',' ((hparams ++ info).map (fun p => vstr p.2)) := by
    apply not_mem_joinChar _ _ _ (by decide)
    intro p hp
    obtain ⟨q, hq, hqe⟩ := List.mem_map.mp hp
    exact hqe ▸ (hvals q hq).2
  have hlines : splitChar '\n' (saveHyperparamsAndMetrics vstr hparams info) =
      [joinChar ',' ((hparams ++ info).map Prod.fst),
       joinChar ',' ((hparams ++ info).map (fun p => vstr p.2)), []] := by
    rw [hfile, splitChar_append _ _ _ hn1,
      show (joinChar ',' ((hparams ++ info).map (fun p => vstr p.2)) ++ ['\n']) =
        joinChar ',' ((hparams ++ info).map (fun p => vstr p.2)) ++ '\n' :: [] from rfl,
      splitChar_append _ _ _ hn2]
    rfl
  refine ⟨hlines, ?_⟩
  intro k
  have hsplit1 : splitChar ',' (joinChar ',' ((hparams ++ info).map Prod.fst)) =
      (hparams ++ info).map Prod.fst := by
    apply splitChar_joinChar _ _ hkne
    intro p hp
    obtain ⟨q, hq, hqe⟩ := List.mem_map.mp hp
    exact hqe ▸ (hkeys q hq).1
  have hsplit2 : splitChar ','
      (joinChar ',' ((hparams ++ info).map (fun p => vstr p.2))) =
      (hparams ++ info).map (fun p => vstr p.2) := by
    apply splitChar_joinChar _ _ hvne
    intro p hp
    obtain ⟨q, hq, hqe⟩ := List.mem_map.mp hp
    exact hqe ▸ (hvals q hq).1
  have hparse : parseArtifact (saveHyperparamsAndMetrics vstr hparams info) =
      (hparams ++ info).map (fun p => (p.1, vstr p.2)) := by
    simp only [parseArtifact, hlines, hsplit1, hsplit2]
    exact List.zip_map' Prod.fst (fun p => vstr p.2) (hparams ++ info)
  rw [hparse, dictLookup_map]

/-- C5 counterexample: with an embedded comma in a value (no quoting or
escaping is performed), parsing the written file back does not reconstruct
the union of the inputs, so the unrestricted claim is false. -/
theorem saveHyperparamsAndMetrics_comma_cex :
    dictLookup (parseArtifact (saveHyperparamsAndMetrics (fun v => v)
        [(chars "a", chars "x,y")] [])) (chars "a") ≠
      (dictLookup [(chars "a", chars "x,y")] (chars "a")).map (fun v => v) := by
  decide

/-- Concrete deterministic model class for witnesses: the model records its
first hyperparameter value and reports it as the `ndcg` metric. -/
def wals : ModelClass Unit ℚ Unit ℚ :=
  ⟨chars "ALS",
   fun d => Except.ok ((d.map Prod.snd).headD 0),
   fun m _ => Except.ok m,
   fun m _ _ _ => Except.ok [(chars "ndcg", m)],
   fun _ => 0,
   fun _ => ()⟩

/-- Concrete model class whose validation raises on hyperparameter value 2. -/
def wfail : ModelClass Unit ℚ Unit ℚ :=
  ⟨chars "FailALS",
   fun d => Except.ok ((d.map Prod.snd).headD 0),
   fun m _ => Except.ok m,
   fun m _ _ _ => if m = 2 then Except.error () else Except.ok [(chars "ndcg", m)],
   fun _ => 0,
   fun _ => ()⟩

/-- Concrete configuration for witnesses (sequential by default). -/
def wconf : Configuration Unit ℚ Unit ℚ :=
  ⟨false, 10, chars "ndcg", 1/2, 1/4,
   fun _ => wals,
   fun _ => chars "data/gt.npz",
   fun _ => [(chars "factors", [8, 16])],
   fun _ => wals,
   fun _ => [(chars "factors", [8, 16]), (chars "regularization", [1/100, 1/10]),
     (chars "alpha", [1])],
   fun _ => chars "data/rec",
   chars "model"⟩

def wseed : SeedSequence := ⟨42⟩

/-- The trial results of `wals` on the flat grid `[[1], [3], [2]]`. -/
def wres1 : List (TrialResult ℚ ℚ) :=
  [⟨[(chars "ndcg", 1)], [(chars "factors", 1)], 1⟩,
   ⟨[(chars "ndcg", 3)], [(chars "factors", 3)], 3⟩,
   ⟨[(chars "ndcg", 2)], [(chars "factors", 2)], 2⟩]

/-- The trial results of `wals` on the flat grid `[[2], [3], [3]]` (a tie). -/
def wres2 : List (TrialResult ℚ ℚ) :=
  [⟨[(chars "ndcg", 2)], [(chars "factors", 2)], 2⟩,
   ⟨[(chars "ndcg", 3)], [(chars "factors", 3)], 3⟩,
   ⟨[(chars "ndcg", 3)], [(chars "factors", 3)], 3⟩]

theorem searchBestModel_selects_max_witness :
    (trialDispatch wconf wals [chars "factors"] [[1], [3], [2]] () () =
      Except.ok wres1) ∧
    wres1 ≠ [] ∧
    (∀ t ∈ wres1,
      (dictLookup t.metrics wconf.recommender_evaluation_metric).isSome = true) ∧
    (∃ bd t,
      searchBestModel () () [chars "factors"] [[1], [3], [2]] wseed wals wconf =
        Except.ok bd ∧
      t ∈ wres1 ∧
      bd.model = t.model ∧ bd.hparams = t.hp ∧
      bd.info = mkInfo t.metrics wals wconf wseed ∧
      (∀ u ∈ wres1, valOf wconf.recommender_evaluation_metric u ≤
        valOf wconf.recommender_evaluation_metric t) ∧
      (∀ u ∈ wres1,
        (∀ v ∈ wres1, v ≠ u → valOf wconf.recommender_evaluation_metric v <
          valOf wconf.recommender_evaluation_metric u) →
        bd.model = u.model ∧ bd.hparams = u.hp)) :=
  ⟨by decide, by decide, by decide,
   searchBestModel_selects_max wseed (by decide) (by decide) (by decide)⟩

theorem searchBestModel_tie_first_witness :
    (trialDispatch wconf wals [chars "factors"] [[2], [3], [3]] () () =
      Except.ok wres2) ∧
    wres2 ≠ [] ∧
    (∀ t ∈ wres2,
      (dictLookup t.metrics wconf.recommender_evaluation_metric).isSome = true) ∧
    (∃ bd r₁ t r₂,
      searchBestModel () () [chars "factors"] [[2], [3], [3]] wseed wals wconf =
        Except.ok bd ∧
      wres2 = r₁ ++ t :: r₂ ∧
      bd.model = t.model ∧ bd.hparams = t.hp ∧
      bd.info = mkInfo t.metrics wals wconf wseed ∧
      (∀ u ∈ wres2, valOf wconf.recommender_evaluation_metric u ≤
        valOf wconf.recommender_evaluation_metric t) ∧
      (∀ u ∈ r₁, valOf wconf.recommender_evaluation_metric u <
        valOf wconf.recommender_evaluation_metric t)) :=
  ⟨by decide, by decide, by decide,
   searchBestModel_tie_first wseed (by decide) (by decide) (by decide)⟩

def wgrid : Grid ℚ := [(chars "factors", [8, 16]), (chars "alpha", [1, 2, 3])]

theorem itProduct_nested_loop_witness :
    (∀ p ∈ wgrid, p.2 ≠ []) ∧
    ((itProduct (wgrid.map Prod.snd)).length = prodLen (wgrid.map Prod.snd) ∧
      itProduct (wgrid.map Prod.snd) =
        (List.range (prodLen (wgrid.map Prod.snd))).map (nthConfig (wgrid.map Prod.snd))) :=
  ⟨by decide, itProduct_nested_loop wgrid (by decide)⟩

def whp : List (Str × Str) := [(chars "factors", chars "8")]

def winfo : List (Str × Str) := [(chars "ndcg", chars "0.53"), (chars "model", chars "ALS")]

theorem saveHyperparamsAndMetrics_roundtrip_witness :
    (whp ++ winfo ≠ []) ∧
    (∀ p ∈ whp ++ winfo, ',' ∉ p.1 ∧ '\n' ∉ p.1) ∧
    (∀ p ∈ whp ++ winfo, ',' ∉ id p.2 ∧ '\n' ∉ id p.2) ∧
    (splitChar '\n' (saveHyperparamsAndMetrics id whp winfo) =
      [joinChar ',' ((whp ++ winfo).map Prod.fst),
       joinChar ',' ((whp ++ winfo).map (fun p => id p.2)), []] ∧
    ∀ k, dictLookup (parseArtifact (saveHyperparamsAndMetrics id whp winfo)) k =
      (dictLookup (whp ++ winfo) k).map id) :=
  ⟨by decide, by decide, by decide,
   saveHyperparamsAndMetrics_roundtrip id whp winfo (by decide) (by decide) (by decide)⟩

theorem searchBestModel_fail_fast_witness :
    (∃ hp ∈ [[(1 : ℚ)], [2]], ∃ e : Unit,
      trainEvalOneConfiguration wfail [chars "factors"] () () wconf.evaluation_k hp =
        Except.error e) ∧
    (∃ e : Unit,
      searchBestModel () () [chars "factors"] [[(1 : ℚ)], [2]] wseed wfail
          (setParallel wconf true) =
        Except.error (PyError.trial e)) ∧
    (∃ e : Unit,
      searchBestModel () () [chars "factors"] [[(1 : ℚ)], [2]] wseed wfail
          (setParallel wconf false) =
        Except.error (PyError.trial e)) := by
  have h : ∃ hp ∈ [[(1 : ℚ)], [2]], ∃ e : Unit,
      trainEvalOneConfiguration wfail [chars "factors"] () () wconf.evaluation_k hp =
        Except.error e :=
    ⟨[2], by decide, (), by decide⟩
  exact ⟨h,
    searchBestModel_fail_fast () () [chars "factors"] [[1], [2]] wseed h true,
    searchBestModel_fail_fast () () [chars "factors"] [[1], [2]] wseed h false⟩

def wgridEmpty : Grid ℚ := [(chars "factors", [8]), (chars "alpha", [])]

theorem emptyCandidate_error_witness :
    (∃ p ∈ wgridEmpty, p.2 = []) ∧
    itProduct (wgridEmpty.map Prod.snd) = [] ∧
    searchBestModel () () (wgridEmpty.map Prod.fst) (itProduct (wgridEmpty.map Prod.snd))
        wseed wals (setParallel wconf true) =
      Except.error PyError.valueError ∧
    searchBestModel () () (wgridEmpty.map Prod.fst) (itProduct (wgridEmpty.map Prod.snd))
        wseed wals (setParallel wconf false) =
      Except.error PyError.valueError := by
  have h : ∃ p ∈ wgridEmpty, p.2 = [] := ⟨(chars "alpha", []), by decide, rfl⟩
  exact ⟨h, (emptyCandidate_error wconf wals wgridEmpty () () wseed h).1,
    (emptyCandidate_error wconf wals wgridEmpty () () wseed h).2 true,
    (emptyCandidate_error wconf wals wgridEmpty () () wseed h).2 false⟩

theorem trainEval_ok_hp {model_class : ModelClass Mat M ε α} {hparams_names : List Str}
    {train_mat valid_mat : Mat} {k : Nat} {hp : List α} {t : TrialResult M α}
    (h : trainEvalOneConfiguration model_class hparams_names train_mat valid_mat k hp =
      Except.ok t) :
    t.hp = List.zip hparams_names hp := by
  cases hb : model_class.build (List.zip hparams_names hp) with
  | error e =>
    simp only [trainEvalOneConfiguration, hb, bind_error_eq] at h
    exact Except.noConfusion h
  | ok m =>
    cases ht : model_class.train m train_mat with
    | error e =>
      simp only [trainEvalOneConfiguration, hb, bind_ok_eq, ht, bind_error_eq] at h
      exact Except.noConfusion h
    | ok tr =>
      cases hv : model_class.validate tr train_mat valid_mat k with
      | error e =>
        simp only [trainEvalOneConfiguration, hb, bind_ok_eq, ht, hv, bind_error_eq] at h
        exact Except.noConfusion h
      | ok ms =>
        simp only [trainEvalOneConfiguration, hb, bind_ok_eq, ht, hv] at h
        injection h with h1
        rw [← h1]

theorem trialDispatch_ok_mem {conf : Configuration Mat M ε α}
    {model_class : ModelClass Mat M ε α} {hparams_names : List Str}
    {hparams_flat : List (List α)} {train_mat valid_mat : Mat}
    {res : List (TrialResult M α)}
    (hd : trialDispatch conf model_class hparams_names hparams_flat train_mat valid_mat =
      Except.ok res) :
    ∀ t ∈ res, ∃ hpIn ∈ hparams_flat,
      trainEvalOneConfiguration model_class hparams_names train_mat valid_mat
        conf.evaluation_k hpIn = Except.ok t := by
  intro t ht
  have hseq : seqMap
      (fun hp =>
        (trainEvalOneConfiguration model_class hparams_names train_mat valid_mat
            conf.evaluation_k hp).mapError PyError.trial)
      hparams_flat = Except.ok res := by
    by_cases hpar : conf.parallel = true
    · rw [trialDispatch, if_pos hpar] at hd
      by_cases hemp : hparams_flat.isEmpty = true
      · rw [if_pos hemp] at hd
        exact Except.noConfusion hd
      · rw [if_neg hemp, poolStarmap_eq_seqMap] at hd
        exact hd
    · rw [trialDispatch, if_neg hpar] at hd
      exact hd
  obtain ⟨a, ha, hae⟩ := seqMap_ok_mem _ _ _ hseq t ht
  cases hte : trainEvalOneConfiguration model_class hparams_names train_mat valid_mat
      conf.evaluation_k a with
  | error e =>
    rw [hte] at hae
    simp only [Except.mapError] at hae
    exact Except.noConfusion hae
  | ok v =>
    rw [hte] at hae
    simp only [Except.mapError] at hae
    injection hae with h1
    exact ⟨a, ha, by rw [hte, h1]⟩

theorem searchBestModel_hparams_shape {conf : Configuration Mat M ε α}
    {model_class : ModelClass Mat M ε α} {hparams_names : List Str}
    {hparams_flat : List (List α)} {train_mat valid_mat : Mat}
    {seedgen : SeedSequence} {bd : BestDict M α}
    (hok : searchBestModel train_mat valid_mat hparams_names hparams_flat seedgen
      model_class conf = Except.ok bd) :
    ∃ hpIn ∈ hparams_flat, bd.hparams = List.zip hparams_names hpIn := by
  cases hd : trialDispatch conf model_class hparams_names hparams_flat train_mat valid_mat with
  | error e =>
    simp only [searchBestModel, hd, bind_error_eq] at hok
    exact Except.noConfusion hok
  | ok res =>
    cases hk : seqMap (metricKeyed (ε := ε) conf.recommender_evaluation_metric) res with
    | error e =>
      simp only [searchBestModel, hd, bind_ok_eq, hk, bind_error_eq] at hok
      exact Except.noConfusion hok
    | ok keyed =>
      cases keyed with
      | nil =>
        simp only [searchBestModel, hd, bind_ok_eq, hk] at hok
        exact Except.noConfusion hok
      | cons x xs =>
        simp only [searchBestModel, hd, bind_ok_eq, hk] at hok
        injection hok with h1
        obtain ⟨l₁, l₂, hdec, _⟩ := pyMax1_first Prod.fst x xs
        have hpmem : pyMax1 Prod.fst x xs ∈ x :: xs := by
          rw [hdec]
          exact List.mem_append_right _ (List.mem_cons_self _ _)
        obtain ⟨t, htres, hteq⟩ := seqMap_ok_mem _ _ _ hk _ hpmem
        have ht2 : (pyMax1 Prod.fst x xs).2 = t := by
          cases hmk : dictLookup t.metrics conf.recommender_evaluation_metric with
          | none =>
            simp only [metricKeyed, hmk] at hteq
            exact Except.noConfusion hteq
          | some q =>
            simp only [metricKeyed, hmk] at hteq
            injection hteq with h2
            rw [← h2]
        obtain ⟨hpIn, hhp, hte⟩ := trialDispatch_ok_mem hd t htres
        refine ⟨hpIn, hhp, ?_⟩
        rw [← h1]
        show ((pyMax1 Prod.fst x xs).2).hp = List.zip hparams_names hpIn
        rw [ht2]
        exact trainEval_ok_hp hte

theorem dictLookup_zip_not_mem (ks : List Str) (vs : List β) (k : Str) (h : k ∉ ks) :
    dictLookup (List.zip ks vs) k = none := by
  induction ks generalizing vs with
  | nil => rfl
  | cons k0 ks ih =>
    cases vs with
    | nil => rfl
    | cons v vs =>
      have hk0 : ¬ k0 = k := fun he => h (he ▸ List.mem_cons_self k0 ks)
      have hks : k ∉ ks := fun hm => h (List.mem_cons_of_mem k0 hm)
      have ih2 : dictLookup (List.zipWith Prod.mk ks vs) k = none := ih vs hks
      simp only [List.zip_cons_cons, dictLookup, ih2, if_neg hk0]

theorem flatMap_pair_length (g1 g2 : α → β) (fs : List α) :
    (fs.flatMap (fun f => [g1 f, g2 f])).length = 2 * fs.length := by
  induction fs with
  | nil => rfl
  | cons f fs ih =>
    simp only [List.flatMap_cons, List.length_append, ih, List.length_cons]
    simp only [List.length_cons, List.length_nil]
    omega

theorem searchRecommenderLoop_char (vstr : α → Str) (conf : Configuration Mat M ε α)
    (model_class : ModelClass Mat M ε α) (hparams_names : List Str)
    (inner_flat : List (List α)) (train_mat valid_mat : Mat) (seedgen : SeedSequence)
    (base : Str) (fs : List α)
    (hok : (searchRecommenderLoop vstr conf model_class hparams_names inner_flat
      train_mat valid_mat seedgen base fs).1 = Except.ok ()) :
    (∀ f ∈ fs, ∃ bd, searchBestModel train_mat valid_mat hparams_names
      (inner_flat.map (fun hp => f :: hp)) seedgen model_class conf = Except.ok bd) ∧
    (searchRecommenderLoop vstr conf model_class hparams_names inner_flat train_mat
      valid_mat seedgen base fs).2 =
      fs.flatMap (fun f =>
        [⟨base ++ chars "_factors_" ++ vstr f ++ chars ".npz", FileData.modelData⟩,
         ⟨base ++ chars "_factors_" ++ vstr f ++ chars "_hparams.txt",
          FileData.artifact
            (loopBestHparams conf model_class hparams_names inner_flat train_mat
              valid_mat seedgen f)
            (loopBestInfo conf model_class hparams_names inner_flat train_mat
              valid_mat seedgen f)⟩]) := by
  induction fs with
  | nil => exact ⟨by simp, rfl⟩
  | cons f fs ih =>
    cases hs : searchBestModel train_mat valid_mat hparams_names
        (inner_flat.map (fun hp => f :: hp)) seedgen model_class conf with
    | error e =>
      simp only [searchRecommenderLoop, hs] at hok
      exact Except.noConfusion hok
    | ok bd =>
      have hok' : (searchRecommenderLoop vstr conf model_class hparams_names inner_flat
          train_mat valid_mat seedgen base fs).1 = Except.ok () := by
        simp only [searchRecommenderLoop, hs] at hok
        exact hok
      obtain ⟨hall, hwrites⟩ := ih hok'
      refine ⟨?_, ?_⟩
      · intro g hg
        rcases List.mem_cons.mp hg with h1 | h1
        · subst h1
          exact ⟨bd, hs⟩
        · exact hall g h1
      · simp only [searchRecommenderLoop, hs, List.flatMap_cons, loopBestHparams,
          loopBestInfo, hwrites]

/-- C6 (amended): provided `factors` is the **first** key of the recommender
grid (the positional-binding precondition stated in the source's own NOTE),
a completed stage-2 run of `search_recommender` whose grid holds candidate
factor values `fs` writes exactly, in order, one model file
`<base>_factors_<f>.npz` and one artifact `<base>_factors_<f>_hparams.txt`
per factor value `f` — `2*|fs|` files in total — and each persisted
artifact's hyperparameter dict maps `factors` to that factor value.
Without the factors-first precondition the binding claim is false (see the
counterexample). -/
theorem searchRecommender_per_factor (vstr : α → Str) (dataset : Str)
    (train_mat valid_mat : Mat) (seedgen : SeedSequence)
    (conf : Configuration Mat M ε α) (fs : List α) (rest : Grid α)
    (hgrid : conf.recommender_hparams dataset = (chars "factors", fs) :: rest)
    (hnotin : chars "factors" ∉ rest.map Prod.fst)
    (hok : (searchRecommender vstr dataset train_mat valid_mat seedgen conf).1 =
      Except.ok ()) :
    (searchRecommender vstr dataset train_mat valid_mat seedgen conf).2 =
      fs.flatMap (fun f =>
        [⟨conf.recommender_dirs dataset ++ chars "/" ++ conf.model_base_name ++
            chars "_factors_" ++ vstr f ++ chars ".npz", FileData.modelData⟩,
         ⟨conf.recommender_dirs dataset ++ chars "/" ++ conf.model_base_name ++
            chars "_factors_" ++ vstr f ++ chars "_hparams.txt",
          FileData.artifact
            (loopBestHparams conf (conf.recommender_models dataset)
              ((conf.recommender_hparams dataset).map Prod.fst)
              (itProduct (rest.map Prod.snd)) train_mat valid_mat seedgen f)
            (loopBestInfo conf (conf.recommender_models dataset)
              ((conf.recommender_hparams dataset).map Prod.fst)
              (itProduct (rest.map Prod.snd)) train_mat valid_mat seedgen f)⟩]) ∧
    (searchRecommender vstr dataset train_mat valid_mat seedgen conf).2.length =
      2 * fs.length ∧
    ∀ f ∈ fs,
      dictLookup
        (loopBestHparams conf (conf.recommender_models dataset)
          ((conf.recommender_hparams dataset).map Prod.fst)
          (itProduct (rest.map Prod.snd)) train_mat valid_mat seedgen f)
        (chars "factors") = some f := by
  have hpop : dictPop (chars "factors") (conf.recommender_hparams dataset) =
      some (fs, rest) := by
    rw [hgrid]
    simp [dictPop]
  have hsr : searchRecommender vstr dataset train_mat valid_mat seedgen conf =
      searchRecommenderLoop vstr conf (conf.recommender_models dataset)
        ((conf.recommender_hparams dataset).map Prod.fst)
        (itProduct (rest.map Prod.snd)) train_mat valid_mat seedgen
        (conf.recommender_dirs dataset ++ chars "/" ++ conf.model_base_name) fs := by
    simp only [searchRecommender, hpop]
  rw [hsr] at hok
  obtain ⟨hall, hwrites⟩ := searchRecommenderLoop_char vstr conf
    (conf.recommender_models dataset) ((conf.recommender_hparams dataset).map Prod.fst)
    (itProduct (rest.map Prod.snd)) train_mat valid_mat seedgen
    (conf.recommender_dirs dataset ++ chars "/" ++ conf.model_base_name) fs hok
  refine ⟨?_, ?_, ?_⟩
  · rw [hsr, hwrites]
  · rw [hsr, hwrites]
    exact flatMap_pair_length _ _ fs
  · intro f hf
    obtain ⟨bd, hbd⟩ := hall f hf
    have hlb : loopBestHparams conf (conf.recommender_models dataset)
        ((conf.recommender_hparams dataset).map Prod.fst)
        (itProduct (rest.map Prod.snd)) train_mat valid_mat seedgen f = bd.hparams := by
      simp only [loopBestHparams, hbd]
    obtain ⟨hpIn, hhp, hshape⟩ := searchBestModel_hparams_shape hbd
    obtain ⟨w, _, hweq⟩ := List.mem_map.mp hhp
    rw [hlb, hshape, ← hweq, hgrid, List.map_cons, List.zip_cons_cons]
    have htail : dictLookup (List.zip (rest.map Prod.fst) w) (chars "factors") = none :=
      dictLookup_zip_not_mem _ _ _ hnotin
    simp [dictLookup, htail]

/-- C4 (amended): the stage-2 skip check of `generate_recommenders` only
governs the per-factor search.  With more than two entries in the
recommender output directory the per-factor search is skipped and the call
returns exactly the writes of ground-truth resolution — none at all when
the ground-truth artifact already exists, but stage-1 bootstrap writes do
occur when the artifact is missing and the dataset retrievable (see the
counterexample to the unrestricted no-new-files claim).  With exactly two
entries and a successfully resolved ground truth, the per-factor search
runs on the split ground-truth preferences. -/
theorem generateRecommenders_skip (vstr : α → Str) (env : Environment Mat)
    (ground_truth_model_path dataset : Str) (seedgen : SeedSequence)
    (conf : Configuration Mat M ε α) :
    (2 < (env.dir_entries (conf.recommender_dirs dataset)).length →
      generateRecommenders vstr env ground_truth_model_path dataset seedgen conf =
        ((resolveGroundTruth env ground_truth_model_path dataset seedgen conf).1.map
          (fun _ => ()),
         (resolveGroundTruth env ground_truth_model_path dataset seedgen conf).2)) ∧
    ((env.dir_entries (conf.recommender_dirs dataset)).length = 2 →
      ∀ gtm ws,
        resolveGroundTruth env ground_truth_model_path dataset seedgen conf =
          (Except.ok gtm, ws) →
        generateRecommenders vstr env ground_truth_model_path dataset seedgen conf =
          ((searchRecommender vstr dataset
              (env.train_test_split ((conf.ground_truth_models dataset).preferences gtm)
                conf.train_size seedgen conf.validation_size).1
              (env.train_test_split ((conf.ground_truth_models dataset).preferences gtm)
                conf.train_size seedgen conf.validation_size).2.1 seedgen conf).1,
           ws ++ (searchRecommender vstr dataset
              (env.train_test_split ((conf.ground_truth_models dataset).preferences gtm)
                conf.train_size seedgen conf.validation_size).1
              (env.train_test_split ((conf.ground_truth_models dataset).preferences gtm)
                conf.train_size seedgen conf.validation_size).2.1 seedgen conf).2)) := by
  constructor
  · intro hgt
    cases hr : resolveGroundTruth env ground_truth_model_path dataset seedgen conf with
    | mk fst ws =>
      cases fst with
      | error e => simp only [generateRecommenders, hr, Except.map]
      | ok m => simp only [generateRecommenders, hr, if_pos hgt, Except.map]
  · intro h2 gtm ws hr
    have hlt : ¬ (2 < (env.dir_entries (conf.recommender_dirs dataset)).length) := by
      rw [h2]
      omega
    simp only [generateRecommenders, hr, if_neg hlt]

/-- C8: `generate_recommenders` resolves the ground-truth model in priority
order — if the artifact exists at the ground-truth path it is loaded (no
writes); otherwise, if the dataset is retrievable, stage 1 is run to
produce it; otherwise `NotImplementedError` is raised, no search runs and
nothing is written. -/
theorem generateRecommenders_resolution_order (vstr : α → Str) (env : Environment Mat)
    (ground_truth_model_path dataset : Str) (seedgen : SeedSequence)
    (conf : Configuration Mat M ε α) :
    (env.path_exists ground_truth_model_path = true →
      resolveGroundTruth env ground_truth_model_path dataset seedgen conf =
        (Except.ok ((conf.ground_truth_models dataset).load ground_truth_model_path),
         [])) ∧
    (env.path_exists ground_truth_model_path = false →
      env.retrievable dataset = true →
      resolveGroundTruth env ground_truth_model_path dataset seedgen conf =
        generateGroundTruth env dataset seedgen conf) ∧
    (env.path_exists ground_truth_model_path = false →
      env.retrievable dataset = false →
      generateRecommenders vstr env ground_truth_model_path dataset seedgen conf =
        (Except.error PyError.notImplemented, [])) := by
  refine ⟨?_, ?_, ?_⟩
  · intro h
    simp [resolveGroundTruth, h]
  · intro h1 h2
    simp [resolveGroundTruth, h1, h2]
  · intro h1 h2
    have hr : resolveGroundTruth env ground_truth_model_path dataset seedgen conf =
        (Except.error PyError.notImplemented, []) := by
      simp [resolveGroundTruth, h1, h2]
    simp [generateRecommenders, hr]

/-- `str()` on the concrete factor values used in witnesses. -/
def wvstr : ℚ → Str := fun q => if q = 8 then chars "8" else chars "16"

/-- Environment where the ground-truth artifact exists and the recommender
directory holds exactly the two raw ground-truth files. -/
def wenvA : Environment Unit :=
  ⟨fun _ => (), fun _ _ _ _ => ((), (), ()), fun _ => true, fun _ => true,
   fun _ => [chars "gt.npz", chars "gt_hparams.txt"]⟩

/-- Environment where the artifact is missing but the dataset is
retrievable. -/
def wenvB : Environment Unit :=
  ⟨fun _ => (), fun _ _ _ _ => ((), (), ()), fun _ => false, fun _ => true,
   fun _ => [chars "gt.npz", chars "gt_hparams.txt"]⟩

/-- Environment where the artifact is missing and the dataset is not
retrievable. -/
def wenvC : Environment Unit :=
  ⟨fun _ => (), fun _ _ _ _ => ((), (), ()), fun _ => false, fun _ => false,
   fun _ => [chars "gt.npz", chars "gt_hparams.txt"]⟩

/-- Environment with three entries in the recommender directory and a
missing (but retrievable) ground truth. -/
def wenvSkip : Environment Unit :=
  ⟨fun _ => (), fun _ _ _ _ => ((), (), ()), fun _ => false, fun _ => true,
   fun _ => [chars "a", chars "b", chars "c"]⟩

/-- C4 counterexample: with three entries in the recommender directory but a
missing (retrievable) ground-truth artifact, `generate_recommenders` still
writes the stage-1 bootstrap files, so "no new files are written to any
directory" is false as stated. -/
theorem generateRecommenders_skip_cex :
    (wenvSkip.dir_entries (wconf.recommender_dirs (chars "ml"))).length = 3 ∧
    (generateRecommenders wvstr wenvSkip (chars "gt.npz") (chars "ml") wseed wconf).2 ≠
      [] := by
  decide

theorem generateRecommenders_skip_witness :
    (2 < (wenvSkip.dir_entries (wconf.recommender_dirs (chars "ml"))).length) ∧
    (generateRecommenders wvstr wenvSkip (chars "gt.npz") (chars "ml") wseed wconf =
      ((resolveGroundTruth wenvSkip (chars "gt.npz") (chars "ml") wseed wconf).1.map
        (fun _ => ()),
       (resolveGroundTruth wenvSkip (chars "gt.npz") (chars "ml") wseed wconf).2)) ∧
    ((wenvA.dir_entries (wconf.recommender_dirs (chars "ml"))).length = 2) ∧
    (generateRecommenders wvstr wenvA (chars "gt.npz") (chars "ml") wseed wconf =
      ((searchRecommender wvstr (chars "ml") () () wseed wconf).1,
       [] ++ (searchRecommender wvstr (chars "ml") () () wseed wconf).2)) :=
  ⟨by decide,
   (generateRecommenders_skip wvstr wenvSkip (chars "gt.npz") (chars "ml") wseed
     wconf).1 (by decide),
   by decide,
   (generateRecommenders_skip wvstr wenvA (chars "gt.npz") (chars "ml") wseed
     wconf).2 (by decide) 0 [] (by decide)⟩

theorem generateRecommenders_resolution_order_witness :
    (wenvA.path_exists (chars "gt.npz") = true) ∧
    (resolveGroundTruth wenvA (chars "gt.npz") (chars "ml") wseed wconf =
      (Except.ok ((wconf.ground_truth_models (chars "ml")).load (chars "gt.npz")),
       [])) ∧
    (wenvB.path_exists (chars "gt.npz") = false ∧
      wenvB.retrievable (chars "ml") = true) ∧
    (resolveGroundTruth wenvB (chars "gt.npz") (chars "ml") wseed wconf =
      generateGroundTruth wenvB (chars "ml") wseed wconf) ∧
    (wenvC.path_exists (chars "gt.npz") = false ∧
      wenvC.retrievable (chars "ml") = false) ∧
    (generateRecommenders wvstr wenvC (chars "gt.npz") (chars "ml") wseed wconf =
      (Except.error PyError.notImplemented, [])) :=
  ⟨rfl,
   (generateRecommenders_resolution_order wvstr wenvA (chars "gt.npz") (chars "ml")
     wseed wconf).1 rfl,
   ⟨rfl, rfl⟩,
   (generateRecommenders_resolution_order wvstr wenvB (chars "gt.npz") (chars "ml")
     wseed wconf).2.1 rfl rfl,
   ⟨rfl, rfl⟩,
   (generateRecommenders_resolution_order wvstr wenvC (chars "gt.npz") (chars "ml")
     wseed wconf).2.2 rfl rfl⟩

/-- Configuration whose recommender grid lists `factors` second instead of
first — legal per the unrestricted claim, but breaking the positional
binding. -/
def wconfBad : Configuration Unit ℚ Unit ℚ :=
  ⟨false, 10, chars "ndcg", 1/2, 1/4,
   fun _ => wals,
   fun _ => chars "data/gt.npz",
   fun _ => [(chars "factors", [8, 16])],
   fun _ => wals,
   fun _ => [(chars "regularization", [3]), (chars "factors", [8])],
   fun _ => chars "data/rec",
   chars "model"⟩

/-- C6 counterexample: with `factors` as the second grid key, a completed
stage-2 run persists an artifact whose hyperparameter dict does **not** map
`factors` to the factor value 8 (it receives the regularization value
instead, by positional zip), so the claim is false for arbitrary grids. -/
theorem searchRecommender_factors_binding_cex :
    (searchRecommender wvstr (chars "ml") () () wseed wconfBad).1 = Except.ok () ∧
    ¬ ((searchRecommender wvstr (chars "ml") () () wseed wconfBad).2.all
        (fun ev => artifactMapsFactorsTo (8 : ℚ) ev.data) = true) := by
  decide

/-- The recommender grid of `wconf` with the `factors` entry removed. -/
def wrest : Grid ℚ :=
  [(chars "regularization", [1/100, 1/10]), (chars "alpha", [1])]

theorem searchRecommender_per_factor_witness :
    (wconf.recommender_hparams (chars "ml") =
      (chars "factors", [(8 : ℚ), 16]) :: wrest) ∧
    (chars "factors" ∉ wrest.map Prod.fst) ∧
    ((searchRecommender wvstr (chars "ml") () () wseed wconf).1 = Except.ok ()) ∧
    ((searchRecommender wvstr (chars "ml") () () wseed wconf).2 =
      [(8 : ℚ), 16].flatMap (fun f =>
        [⟨wconf.recommender_dirs (chars "ml") ++ chars "/" ++ wconf.model_base_name ++
            chars "_factors_" ++ wvstr f ++ chars ".npz", FileData.modelData⟩,
         ⟨wconf.recommender_dirs (chars "ml") ++ chars "/" ++ wconf.model_base_name ++
            chars "_factors_" ++ wvstr f ++ chars "_hparams.txt",
          FileData.artifact
            (loopBestHparams wconf (wconf.recommender_models (chars "ml"))
              ((wconf.recommender_hparams (chars "ml")).map Prod.fst)
              (itProduct (wrest.map Prod.snd)) () () wseed f)
            (loopBestInfo wconf (wconf.recommender_models (chars "ml"))
              ((wconf.recommender_hparams (chars "ml")).map Prod.fst)
              (itProduct (wrest.map Prod.snd)) () () wseed f)⟩]) ∧
    (searchRecommender wvstr (chars "ml") () () wseed wconf).2.length =
      2 * ([(8 : ℚ), 16]).length ∧
    ∀ f ∈ [(8 : ℚ), 16],
      dictLookup
        (loopBestHparams wconf (wconf.recommender_models (chars "ml"))
          ((wconf.recommender_hparams (chars "ml")).map Prod.fst)
          (itProduct (wrest.map Prod.snd)) () () wseed f)
        (chars "factors") = some f) :=
  ⟨rfl, by decide, by decide,
   searchRecommender_per_factor wvstr (chars "ml") () () wseed wconf [8, 16] wrest
     rfl (by decide) (by decide)⟩
